import Mathlib

/-
Verification of the ledger-to-relational synchronization engine
(src/src/main.rs): byte-level account decoding, length-based layout
classification, and the per-cycle reconciliation (upsert, prune,
aggregate recompute) against a relational store.

Modelling conventions:
  * A raw account buffer is a `List Nat` of byte values (each 0..255 in
    the source; the statements below do not depend on the upper bound).
  * Rust slice indexing (`&data[8..]`, `slice[0..n]`) panics when out of
    bounds; the decoder therefore returns a three-valued `DecodeResult`
    with a distinct `panic` outcome for exactly the out-of-bounds cases.
  * A `Pubkey` and its base58 text rendering are modelled by the 32
    authority bytes themselves (the rendering is injective); account
    addresses are opaque `String`s.
  * The store (`nodes` table keyed by pubkey, singleton `network_stats`
    row) is a `Store`: an association list plus an optional aggregate.
    Each SQL statement in `fetch_program_accounts` is one store
    operation; a failure schedule (`List Bool`, one entry consumed per
    executed statement) injects `StoreError`s.  There is no transaction
    in the source: an operation that succeeded before a later failure
    stays committed.
-/

namespace Indexer

abbrev Bytes := List Nat

/-- One decoded device account: 32 authority bytes and the uri bytes
(the UTF-8 bytes of the decoded `String`). Mirrors `struct NodeDevice`. -/
structure NodeDevice where
  authority : Bytes
  uri : Bytes
deriving DecidableEq, Repr

/-- Is `b` a UTF-8 continuation byte (0x80..0xBF)? -/
def contByte (b : Nat) : Bool := decide (0x80 ≤ b) && decide (b ≤ 0xBF)

/-- Validity of a byte sequence as UTF-8, as checked by Rust
String.from_utf8: rejects overlong encodings, surrogates and
code points above U+10FFFF. -/
def validUtf8 : Bytes → Bool
  | [] => true
  | b :: rest =>
    if b ≤ 0x7F then validUtf8 rest
    else if b < 0xC2 then false
    else if b ≤ 0xDF then
      match rest with
      | b1 :: rest2 => contByte b1 && validUtf8 rest2
      | [] => false
    else if b ≤ 0xEF then
      match rest with
      | b1 :: b2 :: rest3 =>
        (if b = 0xE0 then decide (0xA0 ≤ b1) && decide (b1 ≤ 0xBF)
         else if b = 0xED then decide (0x80 ≤ b1) && decide (b1 ≤ 0x9F)
         else contByte b1) && contByte b2 && validUtf8 rest3
      | _ => false
    else if b ≤ 0xF4 then
      match rest with
      | b1 :: b2 :: b3 :: rest4 =>
        (if b = 0xF0 then decide (0x90 ≤ b1) && decide (b1 ≤ 0xBF)
         else if b = 0xF4 then decide (0x80 ≤ b1) && decide (b1 ≤ 0x8F)
         else contByte b1) && contByte b2 && contByte b3 && validUtf8 rest4
      | _ => false
    else false

/-- Little-endian u32 from four byte values, as u32 from_le_bytes. -/
def leU32 (b0 b1 b2 b3 : Nat) : Nat :=
  b0 + 256 * b1 + 65536 * b2 + 16777216 * b3

/-- Little-endian 4-byte encoding of `n` (n below 2^32 round-trips). -/
def le32 (n : Nat) : Bytes :=
  [n % 256, n / 256 % 256, n / 65536 % 256, n / 16777216 % 256]

/-- Outcome of `deserialize_node_device`: `ok` on success, `err` when the
Rust function returns `Err` (only invalid UTF-8 does), `panic` when an
out-of-bounds slice index aborts the thread. -/
inductive DecodeResult
  | ok (d : NodeDevice)
  | err
  | panic
deriving DecidableEq, Repr

/-- Mirrors `skip_anchor_discriminator`: `&data[8..]` (panics when the
buffer is shorter than 8 bytes; the panic is accounted for at call sites). -/
def skip_anchor_discriminator (data : Bytes) : Bytes := data.drop 8

/-- Mirrors `deserialize_node_device`: drop the 8-byte discriminator,
read 32 authority bytes, a 4-byte little-endian length, then that many
uri bytes decoded as UTF-8.  Every slice operation of the source panics
when out of bounds, which the `panic` branches record. -/
def deserialize_node_device (data : Bytes) : DecodeResult :=
  if data.length < 8 then .panic
  else
    let slice := skip_anchor_discriminator data
    if slice.length < 32 then .panic
    else
      let authority := slice.take 32
      let s2 := slice.drop 32
      if s2.length < 4 then .panic
      else
        let uriLen :=
          match s2 with
          | b0 :: b1 :: b2 :: b3 :: _ => leU32 b0 b1 b2 b3
          | _ => 0
        let s3 := s2.drop 4
        if s3.length < uriLen then .panic
        else
          let uriBytes := s3.take uriLen
          if validUtf8 uriBytes then .ok ⟨authority, uriBytes⟩ else .err

/-- Outcome of `deserialize_network_stats`. -/
inductive StatsResult
  | ok (totalNodes : Nat)
  | err
  | panic
deriving DecidableEq, Repr

/-- Little-endian u64 from eight byte values. -/
def leU64 (bs : Bytes) : Nat :=
  bs.foldr (fun b acc => b + 256 * acc) 0

/-- Mirrors `deserialize_network_stats`: drop the discriminator (panics
below 8 bytes), then borsh-deserialize a single u64, which requires
exactly 8 remaining bytes (borsh rejects both truncation and trailing
bytes with an `Err`). -/
def deserialize_network_stats (data : Bytes) : StatsResult :=
  if data.length < 8 then .panic
  else if data.length ≠ 16 then .err
  else .ok (leU64 (skip_anchor_discriminator data))

/-- The layout classes of the spec's Account Classifier. -/
inductive Layout
  | deviceLayout
  | aggregateLayout
  | unknown
deriving DecidableEq, Repr

/-- Classification implemented by the source loop: the only length test
in `fetch_program_accounts` is `data_len > 40`; there is no other
branch, so every other length falls through the loop body untouched. -/
def classify_code (len : Nat) : Layout :=
  if 40 < len then .deviceLayout else .unknown

/-- Classification as the spec words it (for comparison with
`classify_code`): longer than 40 bytes is a device record, exactly
discriminator + one u64 (16 bytes) is the aggregate, else unknown. -/
def classify_spec (len : Nat) : Layout :=
  if 40 < len then .deviceLayout
  else if len = 16 then .aggregateLayout
  else .unknown

/-- The `nodes` table: rows keyed by pubkey text. -/
abbrev NodesTable := List (String × NodeDevice)

/-- The relational store: the `nodes` table plus the singleton
`network_stats` row (`none` when the row was never inserted). -/
structure Store where
  nodes : NodesTable
  stats : Option Nat
deriving DecidableEq, Repr

/-- INSERT .. ON CONFLICT (pubkey) DO UPDATE: replace the row with key
`k` if present (the primary key makes it unique), else append. -/
def upsert (k : String) (v : NodeDevice) : NodesTable → NodesTable
  | [] => [(k, v)]
  | (k', v') :: rest =>
    if k' = k then (k, v) :: rest else (k', v') :: upsert k v rest

/-- DELETE FROM nodes WHERE pubkey <> ALL(seen): keep exactly the rows
whose key occurs in `seen` (with `seen` empty, every row is deleted). -/
def prune (seen : List String) (t : NodesTable) : NodesTable :=
  t.filter (fun kv => decide (kv.1 ∈ seen))

/-- Pop the next failure flag from the schedule: an exhausted schedule
means every remaining operation succeeds. -/
def takeOp : List Bool → Bool × List Bool
  | [] => (false, [])
  | b :: rest => (b, rest)

/-- One fetched account: (address, raw data bytes). -/
abbrev Account := String × Bytes

/-- The device records the loop extracts: accounts longer than 40 bytes
whose device decode succeeds, in fetch order. -/
def devicesOf : List Account → List (String × NodeDevice)
  | [] => []
  | (pk, data) :: rest =>
    if 40 < data.length then
      match deserialize_node_device data with
      | .ok d => (pk, d) :: devicesOf rest
      | _ => devicesOf rest
    else devicesOf rest

/-- The `on_chain_node_pubkeys` vector collected by a (completed) loop. -/
def seenOf (accounts : List Account) : List String :=
  (devicesOf accounts).map Prod.fst

/-- Fold a device list into the table by successive upserts. -/
def applyDevices : List (String × NodeDevice) → NodesTable → NodesTable
  | [], t => t
  | (k, v) :: ds, t => applyDevices ds (upsert k v t)

/-- Result of the account loop of `fetch_program_accounts`:
`done` carries the unconsumed schedule, the collected pubkeys and the
mutated table; `stAborted` is an upsert statement failing (`?` returns,
keeping the mutations already committed); `panicAborted` is an
out-of-bounds decode panic unwinding the task. -/
inductive LoopResult
  | done (sched : List Bool) (seen : List String) (nodes : NodesTable)
  | stAborted (nodes : NodesTable)
  | panicAborted (nodes : NodesTable)
deriving DecidableEq, Repr

/-- The account loop: for each account, the single length test
`data_len > 40` guards the device decode; a successful decode pushes the
pubkey and runs one upsert statement (which may fail); `Err` decodes are
logged and skipped; a panic aborts everything. -/
def processAccounts : List Account → List Bool → List String → NodesTable → LoopResult
  | [], sched, seen, nodes => .done sched seen nodes
  | (pk, data) :: rest, sched, seen, nodes =>
    if 40 < data.length then
      match deserialize_node_device data with
      | .ok d =>
        let op := takeOp sched
        if op.1 then .stAborted nodes
        else processAccounts rest op.2 (seen ++ [pk]) (upsert pk d nodes)
      | .err => processAccounts rest sched seen nodes
      | .panic => .panicAborted nodes
    else processAccounts rest sched seen nodes

/-- How one reconciliation cycle ends. -/
inductive CycleOutcome
  | success
  | fetchError
  | storeError
  | panicked
deriving DecidableEq, Repr

/-- One cycle of `fetch_program_accounts` over an already-resolved fetch
outcome: a failed fetch returns before any store statement; otherwise
the account loop runs, then the prune DELETE, the COUNT(*) SELECT and
the `network_stats` upsert, each a store operation that may fail, each
committed individually (the source opens no transaction). -/
def runCycle (fetch : Except Unit (List Account)) (sched : List Bool) (s : Store) :
    Store × CycleOutcome :=
  match fetch with
  | .error _ => (s, .fetchError)
  | .ok accounts =>
    match processAccounts accounts sched [] s.nodes with
    | .panicAborted nodes => ({ s with nodes := nodes }, .panicked)
    | .stAborted nodes => ({ s with nodes := nodes }, .storeError)
    | .done sched1 seen nodes =>
      let op1 := takeOp sched1
      if op1.1 then ({ s with nodes := nodes }, .storeError)
      else
        let nodes2 := prune seen nodes
        let op2 := takeOp op1.2
        if op2.1 then ({ s with nodes := nodes2 }, .storeError)
        else
          let op3 := takeOp op2.2
          if op3.1 then ({ s with nodes := nodes2 }, .storeError)
          else ({ nodes := nodes2, stats := some nodes2.length }, .success)

/-- The keys (pubkeys) of a table, in row order. -/
def keys (t : NodesTable) : List String := t.map Prod.fst

/-- First row value stored under key `k`. -/
def lookupRow (k : String) : NodesTable → Option NodeDevice
  | [] => none
  | (k', v) :: rest => if k' = k then some v else lookupRow k rest

/-- Device buffer encoding: discriminator, 32 authority bytes, 4-byte
little-endian uri length, uri bytes. -/
def encodeDevice (disc auth uri : Bytes) : Bytes :=
  disc ++ auth ++ le32 uri.length ++ uri

/-! ### Helper lemmas about the account loop and the cycle -/

theorem processAccounts_done_eq (accounts : List Account) :
    ∀ sched seen nodes sched' seen' nodes',
      processAccounts accounts sched seen nodes = .done sched' seen' nodes' →
      seen' = seen ++ seenOf accounts ∧
        nodes' = applyDevices (devicesOf accounts) nodes := by
  induction accounts with
  | nil =>
    intro sched seen nodes sched' seen' nodes' h
    simp only [processAccounts, LoopResult.done.injEq] at h
    simp [seenOf, devicesOf, applyDevices, h.2.1.symm, h.2.2.symm]
  | cons a rest ih =>
    obtain ⟨pk, data⟩ := a
    intro sched seen nodes sched' seen' nodes' h
    simp only [processAccounts] at h
    by_cases hlen : 40 < data.length
    · rw [if_pos hlen] at h
      rcases hdec : deserialize_node_device data with d | _ | _ <;> rw [hdec] at h
      · rcases hop : takeOp sched with ⟨f, s'⟩
        rw [hop] at h
        cases f with
        | true => simp at h
        | false =>
          simp only [Bool.false_eq_true, if_false] at h
          obtain ⟨h1, h2⟩ := ih s' (seen ++ [pk]) (upsert pk d nodes) sched' seen' nodes' h
          constructor
          · rw [h1]
            simp [seenOf, devicesOf, if_pos hlen, hdec]
          · rw [h2]
            simp [devicesOf, if_pos hlen, hdec, applyDevices]
      · obtain ⟨h1, h2⟩ := ih sched seen nodes sched' seen' nodes' h
        constructor
        · rw [h1]; simp [seenOf, devicesOf, if_pos hlen, hdec]
        · rw [h2]; simp [devicesOf, if_pos hlen, hdec]
      · simp at h
    · rw [if_neg hlen] at h
      obtain ⟨h1, h2⟩ := ih sched seen nodes sched' seen' nodes' h
      constructor
      · rw [h1]; simp [seenOf, devicesOf, if_neg hlen]
      · rw [h2]; simp [devicesOf, if_neg hlen]

/-- On a successful cycle the final store is the pruned upsert image of
the pre-cycle table together with the freshly counted aggregate. -/
theorem runCycle_success_eq (accounts : List Account) (sched : List Bool)
    (s0 s1 : Store)
    (h : runCycle (Except.ok accounts) sched s0 = (s1, .success)) :
    s1.nodes = prune (seenOf accounts) (applyDevices (devicesOf accounts) s0.nodes)
      ∧ s1.stats = some s1.nodes.length := by
  simp only [runCycle] at h
  rcases hp : processAccounts accounts sched [] s0.nodes with ⟨sched1, seen, nodes⟩ | nodes | nodes <;>
    rw [hp] at h
  · obtain ⟨hseen, hnodes⟩ :=
      processAccounts_done_eq accounts sched [] s0.nodes sched1 seen nodes hp
    dsimp only at h
    rcases hop1 : takeOp sched1 with ⟨f1, r1⟩
    rw [hop1] at h
    cases f1 with
    | true => simp at h
    | false =>
      simp only [Bool.false_eq_true, if_false] at h
      rcases hop2 : takeOp r1 with ⟨f2, r2⟩
      rw [hop2] at h
      cases f2 with
      | true => simp at h
      | false =>
        simp only [Bool.false_eq_true, if_false] at h
        rcases hop3 : takeOp r2 with ⟨f3, r3⟩
        rw [hop3] at h
        cases f3 with
        | true => simp at h
        | false =>
          simp only [Bool.false_eq_true, if_false, Prod.mk.injEq] at h
          rw [← h.1, hseen, hnodes]
          simp
  · simp at h
  · simp at h

/-! ### Table lemmas: upsert, prune, applyDevices -/

theorem mem_keys_upsert (a k : String) (v : NodeDevice) (t : NodesTable) :
    a ∈ keys (upsert k v t) ↔ a = k ∨ a ∈ keys t := by
  induction t with
  | nil => simp [upsert, keys]
  | cons kv rest ih =>
    obtain ⟨k', v'⟩ := kv
    by_cases hk : k' = k
    · subst hk
      simp [upsert, keys]
    · simp only [upsert, if_neg hk, keys, List.map_cons, List.mem_cons]
      rw [keys] at ih
      rw [ih]
      tauto

theorem mem_keys_applyDevices (a : String) (ds : List (String × NodeDevice)) :
    ∀ t, a ∈ keys (applyDevices ds t) ↔ a ∈ ds.map Prod.fst ∨ a ∈ keys t := by
  induction ds with
  | nil => intro t; simp [applyDevices]
  | cons kv rest ih =>
    obtain ⟨k, v⟩ := kv
    intro t
    rw [applyDevices, ih, mem_keys_upsert]
    simp
    tauto

theorem prune_cons (seen : List String) (k : String) (v : NodeDevice)
    (rest : NodesTable) :
    prune seen ((k, v) :: rest) =
      if k ∈ seen then (k, v) :: prune seen rest else prune seen rest := by
  by_cases hk : k ∈ seen <;> simp [prune, List.filter_cons, hk]

theorem mem_keys_prune (a : String) (seen : List String) (t : NodesTable) :
    a ∈ keys (prune seen t) ↔ a ∈ keys t ∧ a ∈ seen := by
  unfold keys prune
  simp only [List.mem_map, List.mem_filter, decide_eq_true_eq]
  constructor
  · rintro ⟨⟨k, v⟩, ⟨hm, hs⟩, rfl⟩
    exact ⟨⟨(k, v), hm, rfl⟩, hs⟩
  · rintro ⟨⟨⟨k, v⟩, hm, rfl⟩, hs⟩
    exact ⟨(k, v), ⟨hm, hs⟩, rfl⟩

theorem lookupRow_upsert (a k : String) (v : NodeDevice) (t : NodesTable) :
    lookupRow a (upsert k v t) = if k = a then some v else lookupRow a t := by
  induction t with
  | nil => by_cases hka : k = a <;> simp [upsert, lookupRow, hka]
  | cons kv rest ih =>
    obtain ⟨k', v'⟩ := kv
    by_cases hk : k' = k
    · subst hk
      by_cases hka : k' = a <;> simp [upsert, lookupRow, hka]
    · simp only [upsert, if_neg hk]
      by_cases hka : k' = a
      · subst hka
        have hk2 : ¬(k = k') := fun hc => hk hc.symm
        simp [lookupRow, hk2]
      · simp [lookupRow, hka, ih]

theorem lookupRow_applyDevices_not_mem (a : String)
    (ds : List (String × NodeDevice)) :
    ∀ t, a ∉ ds.map Prod.fst →
      lookupRow a (applyDevices ds t) = lookupRow a t := by
  induction ds with
  | nil => intro t _; rfl
  | cons kv rest ih =>
    obtain ⟨k, v⟩ := kv
    intro t ha
    simp only [List.map_cons, List.mem_cons, not_or] at ha
    rw [applyDevices, ih _ ha.2, lookupRow_upsert,
      if_neg (fun hc => ha.1 hc.symm)]

theorem lookupRow_applyDevices_of_nodup (ds : List (String × NodeDevice))
    (hnd : (ds.map Prod.fst).Nodup) :
    ∀ t, ∀ kv ∈ ds, lookupRow kv.1 (applyDevices ds t) = some kv.2 := by
  induction ds with
  | nil => intro t kv hkv; simp at hkv
  | cons hd rest ih =>
    obtain ⟨k, v⟩ := hd
    simp only [List.map_cons, List.nodup_cons] at hnd
    intro t kv hkv
    rcases List.mem_cons.mp hkv with rfl | hmem
    · rw [applyDevices, lookupRow_applyDevices_not_mem _ _ _ hnd.1,
        lookupRow_upsert, if_pos rfl]
    · exact ih hnd.2 (upsert k v t) kv hmem

theorem upsert_eq_of_lookupRow (k : String) (v : NodeDevice) (t : NodesTable)
    (h : lookupRow k t = some v) : upsert k v t = t := by
  induction t with
  | nil => simp [lookupRow] at h
  | cons kv rest ih =>
    obtain ⟨k', v'⟩ := kv
    by_cases hk : k' = k
    · subst hk
      have hv : v' = v := by simpa [lookupRow] using h
      simp [upsert, hv]
    · simp only [lookupRow, if_neg hk] at h
      simp [upsert, hk, ih h]

theorem applyDevices_eq_of_lookupRow (ds : List (String × NodeDevice)) :
    ∀ t, (∀ kv ∈ ds, lookupRow kv.1 t = some kv.2) → applyDevices ds t = t := by
  induction ds with
  | nil => intro t _; rfl
  | cons hd rest ih =>
    obtain ⟨k, v⟩ := hd
    intro t hall
    have h1 : upsert k v t = t :=
      upsert_eq_of_lookupRow k v t (hall (k, v) (List.mem_cons_self _ _))
    rw [applyDevices, h1]
    exact ih t (fun kv hkv => hall kv (List.mem_cons_of_mem _ hkv))

theorem lookupRow_prune_of_mem (a : String) (seen : List String)
    (t : NodesTable) (ha : a ∈ seen) :
    lookupRow a (prune seen t) = lookupRow a t := by
  induction t with
  | nil => rfl
  | cons kv rest ih =>
    obtain ⟨k, v⟩ := kv
    rw [prune_cons]
    by_cases hk : k ∈ seen
    · rw [if_pos hk]
      by_cases hka : k = a
      · subst hka; simp [lookupRow]
      · simp [lookupRow, hka, ih]
    · rw [if_neg hk]
      have hka : ¬(k = a) := fun hc => hk (hc ▸ ha)
      simp [lookupRow, hka, ih]

theorem prune_eq_self (seen : List String) (t : NodesTable)
    (h : ∀ a ∈ keys t, a ∈ seen) : prune seen t = t := by
  induction t with
  | nil => rfl
  | cons kv rest ih =>
    obtain ⟨k, v⟩ := kv
    have hk : k ∈ seen := h k (by simp [keys])
    rw [prune_cons, if_pos hk,
      ih (fun a ha => h a (by simp only [keys, List.map_cons, List.mem_cons]; exact Or.inr ha))]

theorem mem_keys_devicesOf (b : String) (accounts : List Account) :
    b ∈ (devicesOf accounts).map Prod.fst → b ∈ accounts.map Prod.fst := by
  induction accounts with
  | nil => simp [devicesOf]
  | cons a rest ih =>
    obtain ⟨pk, data⟩ := a
    by_cases hlen : 40 < data.length
    · rcases hdec : deserialize_node_device data with d | _ | _ <;>
        simp only [devicesOf, if_pos hlen, hdec, List.map_cons, List.mem_cons] <;>
        intro h
      · rcases h with rfl | h
        · simp
        · simp [ih h]
      · simp [ih h]
      · simp [ih h]
    · simp only [devicesOf, if_neg hlen, List.map_cons, List.mem_cons]
      intro h
      simp [ih h]

theorem nodup_keys_devicesOf (accounts : List Account)
    (h : (accounts.map Prod.fst).Nodup) :
    ((devicesOf accounts).map Prod.fst).Nodup := by
  induction accounts with
  | nil => simp [devicesOf]
  | cons a rest ih =>
    obtain ⟨pk, data⟩ := a
    simp only [List.map_cons, List.nodup_cons] at h
    by_cases hlen : 40 < data.length
    · rcases hdec : deserialize_node_device data with d | _ | _ <;>
        simp only [devicesOf, if_pos hlen, hdec, List.map_cons, List.nodup_cons]
      · exact ⟨fun hc => h.1 (mem_keys_devicesOf _ _ hc), ih h.2⟩
      · exact ih h.2
      · exact ih h.2
    · simp only [devicesOf, if_neg hlen]
      exact ih h.2

theorem prune_nil (t : NodesTable) : prune [] t = [] := by
  simp [prune]

theorem takeOp_noFail (sched : List Bool) (h : ∀ b ∈ sched, b = false) :
    (takeOp sched).1 = false ∧ ∀ b ∈ (takeOp sched).2, b = false := by
  cases sched with
  | nil => exact ⟨rfl, by simp [takeOp]⟩
  | cons b r =>
    exact ⟨h b (List.mem_cons_self _ _), fun b' hb' => h b' (List.mem_cons_of_mem _ hb')⟩

/-! ### Claim theorems -/

/-- C8: if the fetch step (RPC call) fails, the entire cycle aborts
before any store mutation; the nodes table and the network_stats row are
exactly their pre-cycle values. -/
theorem C8_fetch_failure_isolation (sched : List Bool) (s : Store) :
    runCycle (Except.error ()) sched s = (s, CycleOutcome.fetchError) := rfl

/-- C2, evaluated at its failing inputs: `deserialize_node_device` does
NOT return a decode error on every malformed buffer — a buffer shorter
than 44 bytes and a declared uri length overrunning the remaining bytes
both panic via an out-of-bounds slice index; only invalid UTF-8 is
returned as an error, contradicting the claim that truncation always
fails with DecodeError and never panics. -/
theorem C2_truncation_panics :
    deserialize_node_device [] = DecodeResult.panic
    ∧ deserialize_node_device (List.replicate 20 0) = DecodeResult.panic
    ∧ deserialize_node_device (List.replicate 41 0) = DecodeResult.panic
    ∧ deserialize_node_device
        (List.replicate 8 0 ++ List.replicate 32 1 ++ le32 10 ++ [1, 2, 3])
        = DecodeResult.panic
    ∧ deserialize_node_device
        (List.replicate 8 0 ++ List.replicate 32 1 ++ le32 1 ++ [255])
        = DecodeResult.err := by
  exact ⟨rfl, by decide, by decide, by decide, by decide⟩

/-- C3 counterexample: a buffer of exactly 16 bytes is NOT classified as
the aggregate layout by the source loop — its only length test is
`data_len > 40` and there is no aggregate branch — so the code's
classification disagrees with the spec's wording at length 16. -/
theorem C3_counterexample :
    classify_code 16 = Layout.unknown
    ∧ classify_spec 16 = Layout.aggregateLayout
    ∧ classify_code 16 ≠ classify_spec 16 := by decide

/-- C3 amended: a buffer longer than 40 bytes is handed to the device
decoder, and every other buffer — including a 16-byte one — is Unknown
and skipped without error or effect; no aggregate decoding happens. -/
theorem C3_amended_classification (pk : String) (data : Bytes)
    (rest : List Account) (sched : List Bool) (seen : List String)
    (nodes : NodesTable) (h : data.length ≤ 40) :
    classify_code data.length = Layout.unknown
    ∧ processAccounts ((pk, data) :: rest) sched seen nodes
        = processAccounts rest sched seen nodes := by
  have hlen : ¬(40 < data.length) := by omega
  exact ⟨by simp [classify_code, hlen], by simp [processAccounts, hlen]⟩

/-- C3 witness: the amended classification at a concrete 16-byte buffer. -/
theorem C3_witness :
    classify_code (List.replicate 16 7 : Bytes).length = Layout.unknown
    ∧ processAccounts [("S", List.replicate 16 7)] [] [] []
        = processAccounts [] [] [] [] :=
  C3_amended_classification "S" (List.replicate 16 7) [] [] [] [] (by decide)

/-- C4: after every completed (successful) reconciliation cycle the
singleton aggregate equals the exact row count of the nodes table, for
arbitrary fetches, schedules and pre-states; the value is derived
locally (the statement quantifies over all account contents, so no
on-chain aggregate value can influence it). -/
theorem C4_aggregate_consistency (accounts : List Account) (sched : List Bool)
    (s0 s1 : Store)
    (h : runCycle (Except.ok accounts) sched s0 = (s1, CycleOutcome.success)) :
    s1.stats = some s1.nodes.length :=
  (runCycle_success_eq accounts sched s0 s1 h).2

/-- C4 witness: a concrete cycle whose fetch carries a 16-byte aggregate
account declaring 99 on-chain nodes still stores the locally counted 1. -/
theorem C4_witness :
    runCycle (Except.ok
        [("A", encodeDevice (List.replicate 8 0) (List.replicate 32 1) [104]),
         ("S", List.replicate 8 9 ++ le32 99 ++ le32 0)]) []
        ⟨[], none⟩
      = (⟨[("A", ⟨List.replicate 32 1, [104]⟩)], some 1⟩, CycleOutcome.success)
    ∧ (⟨[("A", ⟨List.replicate 32 1, [104]⟩)], some 1⟩ : Store).stats
        = some (⟨[("A", ⟨List.replicate 32 1, [104]⟩)], some 1⟩ : Store).nodes.length :=
  ⟨by decide,
   C4_aggregate_consistency
     [("A", encodeDevice (List.replicate 8 0) (List.replicate 32 1) [104]),
      ("S", List.replicate 8 9 ++ le32 99 ++ le32 0)] []
     ⟨[], none⟩ ⟨[("A", ⟨List.replicate 32 1, [104]⟩)], some 1⟩ (by decide)⟩

/-- C5: after a completed cycle the mirror contains exactly the set of
addresses successfully upserted this cycle (the collected pubkeys):
membership in the post-cycle nodes table coincides with membership in
`seenOf accounts`. -/
theorem C5_mirror_equals_seen (accounts : List Account) (sched : List Bool)
    (s0 s1 : Store) (pk : String)
    (h : runCycle (Except.ok accounts) sched s0 = (s1, CycleOutcome.success)) :
    pk ∈ keys s1.nodes ↔ pk ∈ seenOf accounts := by
  obtain ⟨hn, _⟩ := runCycle_success_eq accounts sched s0 s1 h
  rw [hn, mem_keys_prune, mem_keys_applyDevices]
  unfold seenOf
  constructor
  · rintro ⟨_, hs⟩
    exact hs
  · intro hs
    exact ⟨Or.inl hs, hs⟩

/-- C5 witness: a mirror holding A, B, C reconciled against a fetch
decoding only A and C prunes B — instantiated at address B. -/
theorem C5_witness :
    runCycle (Except.ok
        [("A", encodeDevice (List.replicate 8 0) (List.replicate 32 1) [104]),
         ("C", encodeDevice (List.replicate 8 0) (List.replicate 32 3) [106])]) []
        ⟨[("A", ⟨List.replicate 32 9, [120]⟩), ("B", ⟨List.replicate 32 9, [121]⟩),
          ("C", ⟨List.replicate 32 9, [122]⟩)], some 3⟩
      = (⟨[("A", ⟨List.replicate 32 1, [104]⟩), ("C", ⟨List.replicate 32 3, [106]⟩)],
          some 2⟩, CycleOutcome.success)
    ∧ ("B" ∈ keys (⟨[("A", ⟨List.replicate 32 1, [104]⟩),
          ("C", ⟨List.replicate 32 3, [106]⟩)], some 2⟩ : Store).nodes
        ↔ "B" ∈ seenOf
            [("A", encodeDevice (List.replicate 8 0) (List.replicate 32 1) [104]),
             ("C", encodeDevice (List.replicate 8 0) (List.replicate 32 3) [106])]) :=
  ⟨by decide,
   C5_mirror_equals_seen
     [("A", encodeDevice (List.replicate 8 0) (List.replicate 32 1) [104]),
      ("C", encodeDevice (List.replicate 8 0) (List.replicate 32 3) [106])] []
     ⟨[("A", ⟨List.replicate 32 9, [120]⟩), ("B", ⟨List.replicate 32 9, [121]⟩),
       ("C", ⟨List.replicate 32 9, [122]⟩)], some 3⟩
     ⟨[("A", ⟨List.replicate 32 1, [104]⟩), ("C", ⟨List.replicate 32 3, [106]⟩)],
       some 2⟩ "B" (by decide)⟩

/-- C9, evaluated at its failing input: a 41-byte buffer is classified
as a device record but panics the decoder (out-of-bounds slice), which
aborts the whole cycle — the valid device account later in the same
fetch is never upserted and the prune and aggregate steps never run,
contradicting the claim that a per-account decode failure never aborts
the cycle. -/
theorem C9_decode_panic_aborts_cycle :
    runCycle (Except.ok
        [("B", List.replicate 41 0),
         ("C", encodeDevice (List.replicate 8 0) (List.replicate 32 1) [104])]) []
        ⟨[], none⟩
      = (⟨[], none⟩, CycleOutcome.panicked)
    ∧ deserialize_node_device
        (encodeDevice (List.replicate 8 0) (List.replicate 32 1) [104])
        = DecodeResult.ok ⟨List.replicate 32 1, [104]⟩ := by
  exact ⟨by decide, by decide⟩

/-- C10 counterexample: a fetch whose only account is 41 bytes long (so
no account is both longer than 40 bytes and successfully decoded)
panics the cycle and leaves a non-empty mirror with a non-zero
aggregate, contradicting the claim that such a cycle always empties the
mirror and sets the aggregate to 0. -/
theorem C10_counterexample :
    runCycle (Except.ok [("X", List.replicate 41 0)]) []
        ⟨[("A", ⟨List.replicate 32 1, [104]⟩)], some 1⟩
      = (⟨[("A", ⟨List.replicate 32 1, [104]⟩)], some 1⟩, CycleOutcome.panicked)
    ∧ (⟨[("A", ⟨List.replicate 32 1, [104]⟩)], some 1⟩ : Store).nodes ≠ []
    ∧ (⟨[("A", ⟨List.replicate 32 1, [104]⟩)], some 1⟩ : Store).stats ≠ some 0 := by
  exact ⟨by decide, by decide, by decide⟩

theorem processAccounts_no_devices (accounts : List Account)
    (hdev : devicesOf accounts = [])
    (hnp : ∀ a ∈ accounts, 40 < a.2.length →
      deserialize_node_device a.2 ≠ DecodeResult.panic) :
    ∀ sched seen nodes,
      processAccounts accounts sched seen nodes = .done sched seen nodes := by
  induction accounts with
  | nil => intro sched seen nodes; rfl
  | cons a rest ih =>
    obtain ⟨pk, data⟩ := a
    intro sched seen nodes
    have hnp' : ∀ a ∈ rest, 40 < a.2.length →
        deserialize_node_device a.2 ≠ DecodeResult.panic :=
      fun a ha hl => hnp a (List.mem_cons_of_mem _ ha) hl
    by_cases hlen : 40 < data.length
    · rcases hdec : deserialize_node_device data with d | _ | _
      · exfalso
        rw [devicesOf, if_pos hlen, hdec] at hdev
        simp at hdev
      · rw [devicesOf, if_pos hlen, hdec] at hdev
        simp only [processAccounts, if_pos hlen, hdec]
        exact ih hdev hnp' sched seen nodes
      · exact absurd hdec (hnp (pk, data) (List.mem_cons_self _ _) hlen)
    · rw [devicesOf, if_neg hlen] at hdev
      simp only [processAccounts, if_neg hlen]
      exact ih hdev hnp' sched seen nodes

/-- C10 amended: if the fetch succeeds, no fetched account is both
longer than 40 bytes and successfully decoded, no device-classified
account panics the decoder, and no store operation fails, then the
collected pubkey list is empty, the prune deletes every row, and the
aggregate is set to 0 — the cycle completely empties the mirror. -/
theorem C10_amended_empty_seen_empties_mirror (accounts : List Account)
    (sched : List Bool) (s0 : Store)
    (hdev : devicesOf accounts = [])
    (hnp : ∀ a ∈ accounts, 40 < a.2.length →
      deserialize_node_device a.2 ≠ DecodeResult.panic)
    (hsched : ∀ b ∈ sched, b = false) :
    runCycle (Except.ok accounts) sched s0
      = (⟨[], some 0⟩, CycleOutcome.success) := by
  have hp := processAccounts_no_devices accounts hdev hnp sched [] s0.nodes
  simp only [runCycle]
  rw [hp]
  dsimp only
  obtain ⟨hf1, hr1⟩ := takeOp_noFail sched hsched
  rw [hf1]
  simp only [Bool.false_eq_true, if_false]
  obtain ⟨hf2, hr2⟩ := takeOp_noFail _ hr1
  rw [hf2]
  simp only [Bool.false_eq_true, if_false]
  obtain ⟨hf3, _⟩ := takeOp_noFail _ hr2
  rw [hf3]
  simp only [Bool.false_eq_true, if_false]
  rw [prune_nil]
  rfl

/-- C10 witness: a concrete cycle (one undersized account, one oversized
account that fails UTF-8 decoding with a returned error) over a
populated mirror, emptying it. -/
theorem C10_witness :
    runCycle (Except.ok
        [("U", List.replicate 16 7),
         ("V", List.replicate 8 0 ++ List.replicate 32 1 ++ le32 1 ++ [255])])
        [false]
        ⟨[("A", ⟨List.replicate 32 1, [104]⟩)], some 1⟩
      = (⟨[], some 0⟩, CycleOutcome.success) :=
  C10_amended_empty_seen_empties_mirror
    [("U", List.replicate 16 7),
     ("V", List.replicate 8 0 ++ List.replicate 32 1 ++ le32 1 ++ [255])]
    [false]
    ⟨[("A", ⟨List.replicate 32 1, [104]⟩)], some 1⟩
    (by decide) (by decide) (by decide)

theorem processAccounts_fail (accounts : List Account) :
    ∀ k rest seen nodes,
      (∀ a ∈ accounts, 40 < a.2.length →
        deserialize_node_device a.2 ≠ DecodeResult.panic) →
      k < (devicesOf accounts).length →
      processAccounts accounts (List.replicate k false ++ true :: rest) seen nodes
        = .stAborted (applyDevices ((devicesOf accounts).take k) nodes) := by
  induction accounts with
  | nil =>
    intro k rest seen nodes _ hk
    simp [devicesOf] at hk
  | cons a tl ih =>
    obtain ⟨pk, data⟩ := a
    intro k rest seen nodes hnp hk
    have hnp' : ∀ a ∈ tl, 40 < a.2.length →
        deserialize_node_device a.2 ≠ DecodeResult.panic :=
      fun a ha hl => hnp a (List.mem_cons_of_mem _ ha) hl
    by_cases hlen : 40 < data.length
    · rcases hdec : deserialize_node_device data with d | _ | _
      · cases k with
        | zero =>
          simp only [processAccounts, if_pos hlen, hdec, List.replicate,
            List.nil_append, takeOp]
          simp [devicesOf, if_pos hlen, hdec, applyDevices]
        | succ k' =>
          simp only [processAccounts, if_pos hlen, hdec, List.replicate_succ,
            List.cons_append, takeOp]
          rw [if_neg (by simp)]
          rw [devicesOf, if_pos hlen, hdec] at hk
          simp only [List.length_cons, Nat.succ_lt_succ_iff] at hk
          rw [ih k' rest (seen ++ [pk]) (upsert pk d nodes) hnp' hk]
          simp [devicesOf, if_pos hlen, hdec, applyDevices]
      · rw [devicesOf, if_pos hlen, hdec] at hk
        simp only [processAccounts, if_pos hlen, hdec]
        rw [ih k rest seen nodes hnp' hk]
        simp [devicesOf, if_pos hlen, hdec]
      · exact absurd hdec (hnp (pk, data) (List.mem_cons_self _ _) hlen)
    · rw [devicesOf, if_neg hlen] at hk
      simp only [processAccounts, if_neg hlen]
      rw [ih k rest seen nodes hnp' hk]
      simp [devicesOf, if_neg hlen]

/-- C1 counterexample: with two device accounts and the second upsert
statement failing, the cycle ends in a store error but the first upsert
is already committed — the post-failure store differs from the
pre-cycle store, contradicting the claim that nothing from the cycle is
committed and the mirror retains its pre-cycle state. -/
theorem C1_counterexample :
    runCycle (Except.ok
        [("A", encodeDevice (List.replicate 8 0) (List.replicate 32 1) [104]),
         ("B", encodeDevice (List.replicate 8 0) (List.replicate 32 2) [105])])
        [false, true] ⟨[], some 5⟩
      = (⟨[("A", ⟨List.replicate 32 1, [104]⟩)], some 5⟩, CycleOutcome.storeError)
    ∧ (⟨[("A", ⟨List.replicate 32 1, [104]⟩)], some 5⟩ : Store)
        ≠ ⟨[], some 5⟩ := by
  exact ⟨by decide, by decide⟩

/-- C1 amended: a store operation failing aborts the remaining
operations of the cycle, but the operations already executed stay
committed (there is no transaction): if the (k+1)-st upsert statement
fails, the post-failure mirror is the pre-cycle mirror with exactly the
first k decoded devices upserted, no row has been pruned, and the
aggregate row is unchanged. -/
theorem C1_amended_store_failure_partial_commit (accounts : List Account)
    (k : Nat) (rest : List Bool) (s0 : Store)
    (hnp : ∀ a ∈ accounts, 40 < a.2.length →
      deserialize_node_device a.2 ≠ DecodeResult.panic)
    (hk : k < (devicesOf accounts).length) :
    runCycle (Except.ok accounts) (List.replicate k false ++ true :: rest) s0
      = ({ s0 with nodes := applyDevices ((devicesOf accounts).take k) s0.nodes },
         CycleOutcome.storeError) := by
  simp only [runCycle]
  rw [processAccounts_fail accounts k rest [] s0.nodes hnp hk]

/-- C1 witness: the amended statement at a concrete two-device fetch
with the second upsert failing. -/
theorem C1_witness :
    runCycle (Except.ok
        [("A", encodeDevice (List.replicate 8 0) (List.replicate 32 1) [104]),
         ("B", encodeDevice (List.replicate 8 0) (List.replicate 32 2) [105])])
        (List.replicate 1 false ++ true :: []) ⟨[], some 5⟩
      = ({ nodes := applyDevices
             ((devicesOf
                [("A", encodeDevice (List.replicate 8 0) (List.replicate 32 1) [104]),
                 ("B", encodeDevice (List.replicate 8 0) (List.replicate 32 2) [105])]).take 1)
             [],
           stats := some 5 }, CycleOutcome.storeError) :=
  C1_amended_store_failure_partial_commit
    [("A", encodeDevice (List.replicate 8 0) (List.replicate 32 1) [104]),
     ("B", encodeDevice (List.replicate 8 0) (List.replicate 32 2) [105])]
    1 [] ⟨[], some 5⟩ (by decide) (by decide)

/-- C7: for every 8-byte discriminator, 32-byte authority and valid-UTF-8
uri (whose length fits the 4-byte prefix), decoding the buffer built as
discriminator, authority, little-endian length, uri bytes succeeds and
returns exactly the original authority and uri. -/
theorem C7_roundtrip (disc auth uri : Bytes)
    (hdisc : disc.length = 8) (hauth : auth.length = 32)
    (huri : validUtf8 uri = true) (hbound : uri.length < 4294967296) :
    deserialize_node_device (encodeDevice disc auth uri)
      = DecodeResult.ok ⟨auth, uri⟩ := by
  have hassoc : encodeDevice disc auth uri
      = disc ++ (auth ++ (le32 uri.length ++ uri)) := by
    simp [encodeDevice, List.append_assoc]
  have hdrop8 : (encodeDevice disc auth uri).drop 8
      = auth ++ (le32 uri.length ++ uri) := by
    rw [hassoc, ← hdisc, List.drop_left]
  have hlenE : ¬((encodeDevice disc auth uri).length < 8) := by
    rw [hassoc]
    simp [hdisc]
  have h32 : ¬((auth ++ (le32 uri.length ++ uri)).length < 32) := by
    simp [hauth]
  have hdrop32 : (auth ++ (le32 uri.length ++ uri)).drop 32
      = le32 uri.length ++ uri := by
    rw [← hauth, List.drop_left]
  have htake32 : (auth ++ (le32 uri.length ++ uri)).take 32 = auth := by
    rw [← hauth, List.take_left]
  have hcons : le32 uri.length ++ uri
      = uri.length % 256 :: (uri.length / 256 % 256) :: (uri.length / 65536 % 256)
          :: (uri.length / 16777216 % 256) :: uri := by
    simp [le32]
  have hval : leU32 (uri.length % 256) (uri.length / 256 % 256)
      (uri.length / 65536 % 256) (uri.length / 16777216 % 256) = uri.length := by
    simp only [leU32]
    omega
  have h4 : ¬((le32 uri.length ++ uri).length < 4) := by
    simp [le32]
  simp only [deserialize_node_device, skip_anchor_discriminator]
  rw [if_neg hlenE]
  simp only [hdrop8]
  rw [if_neg h32]
  simp only [hdrop32, htake32]
  rw [if_neg h4]
  simp only [hcons]
  rw [hval]
  simp only [List.drop_succ_cons, List.drop_zero]
  rw [if_neg (lt_irrefl uri.length)]
  simp only [List.take_length]
  rw [if_pos huri]

/-- C7 witness: round-trip at a concrete authority and uri. -/
theorem C7_witness :
    deserialize_node_device
        (encodeDevice (List.replicate 8 0) (List.replicate 32 2) [72, 105])
      = DecodeResult.ok ⟨List.replicate 32 2, [72, 105]⟩ :=
  C7_roundtrip (List.replicate 8 0) (List.replicate 32 2) [72, 105]
    (by decide) (by decide) (by decide) (by decide)

/-- C6: reconciliation is idempotent — two successful cycles in a row on
the same fetch result (a fetch lists each account address once) leave
the nodes table and network_stats row after the second run identical to
their state after the first run. -/
theorem C6_idempotent (accounts : List Account) (sched1 sched2 : List Bool)
    (s0 s1 s2 : Store)
    (hnd : (accounts.map Prod.fst).Nodup)
    (h1 : runCycle (Except.ok accounts) sched1 s0 = (s1, CycleOutcome.success))
    (h2 : runCycle (Except.ok accounts) sched2 s1 = (s2, CycleOutcome.success)) :
    s2 = s1 := by
  obtain ⟨hn1, hs1⟩ := runCycle_success_eq accounts sched1 s0 s1 h1
  obtain ⟨hn2, hs2⟩ := runCycle_success_eq accounts sched2 s1 s2 h2
  have hndk : ((devicesOf accounts).map Prod.fst).Nodup :=
    nodup_keys_devicesOf accounts hnd
  have hfix : applyDevices (devicesOf accounts) s1.nodes = s1.nodes := by
    apply applyDevices_eq_of_lookupRow
    intro kv hkv
    have hseen : kv.1 ∈ seenOf accounts := by
      unfold seenOf
      exact List.mem_map_of_mem Prod.fst hkv
    rw [hn1, lookupRow_prune_of_mem _ _ _ hseen]
    exact lookupRow_applyDevices_of_nodup (devicesOf accounts) hndk s0.nodes kv hkv
  have hkeys : ∀ a ∈ keys s1.nodes, a ∈ seenOf accounts := by
    intro a ha
    rw [hn1] at ha
    exact ((mem_keys_prune _ _ _).1 ha).2
  have hnodes : s2.nodes = s1.nodes := by
    rw [hn2, hfix, prune_eq_self _ _ hkeys]
  have hstats : s2.stats = s1.stats := by
    rw [hs2, hnodes, ← hs1]
  obtain ⟨n2, st2⟩ := s2
  obtain ⟨n1, st1⟩ := s1
  simp only at hnodes hstats
  rw [hnodes, hstats]

/-- C6 witness: two successful runs on the same concrete fetch. -/
theorem C6_witness :
    (⟨[("A", ⟨List.replicate 32 1, [104]⟩)], some 1⟩ : Store)
      = ⟨[("A", ⟨List.replicate 32 1, [104]⟩)], some 1⟩ :=
  C6_idempotent
    [("A", encodeDevice (List.replicate 8 0) (List.replicate 32 1) [104])]
    [] [] ⟨[("B", ⟨List.replicate 32 9, [121]⟩)], none⟩
    ⟨[("A", ⟨List.replicate 32 1, [104]⟩)], some 1⟩
    ⟨[("A", ⟨List.replicate 32 1, [104]⟩)], some 1⟩
    (by decide) (by decide) (by decide)

end Indexer
